import Mathlib

/-!
Shallow embedding of the allamo data-loading pipeline (`src/data_loader.py`, plus the
checkpoint-resume branch of `src/train.py`).  Samples and file names are modelled as
elements of simple types (`Nat`, `Int`, lists); tensors become Lean lists; Python list
slicing, striding and mutation become pure list functions.  All definitions are
executable.
-/

namespace Allamo

/-- Python list slice `data[a:b]` for `a ≤ b` (clamps at the end of the list, as
Python slicing does). -/
def pySlice {α : Type} (data : List α) (a b : Nat) : List α :=
  (data.drop a).take (b - a)

/-- Every `step`-th element of a list starting at its head: the Python slice
`l[::step]`. -/
def everyNth {α : Type} (step : Nat) : List α → List α
  | [] => []
  | a :: l => a :: everyNth step (l.drop (step - 1))
  termination_by l => l.length
  decreasing_by simp only [List.length_drop, List.length_cons]; omega

/-- Python extended slice `samples[rank::step]`. -/
def pyStride {α : Type} (rank step : Nat) (samples : List α) : List α :=
  everyNth step (samples.drop rank)

/-- Model of `AllamoDataset.limit_samples_to_rank`:
`list(s for s in samples[self.rank::self.world_size]) if self.world_size > 1 else samples`. -/
def limit_samples_to_rank {α : Type} (rank world_size : Nat) (samples : List α) : List α :=
  if 1 < world_size then pyStride rank world_size samples else samples

/-- Model of one call to `AllamoDataset.load_next_dataset`: walk the catalog
(`dataset_files`) in order, skip files already in `processed`, append each attempted
file to `processed` (`load_dataset_file` appends before parsing), and stop at the
first file whose load succeeds (`usable`).  Returns the success flag, the updated
processed-files ledger and the file that ended up loaded. -/
def loadNext {α : Type} [DecidableEq α] (usable : α → Bool) :
    List α → List α → Bool × List α × Option α
  | [], processed => (false, processed, none)
  | f :: rest, processed =>
    if f ∈ processed then loadNext usable rest processed
    else if usable f then (true, processed ++ [f], some f)
    else loadNext usable rest (processed ++ [f])

/-- Cursor state restored by the resume branch of `AllamoTrainer.__init__`. -/
structure CursorState (α : Type) where
  processed : List α
  loadedFile : Option α
  offset : Nat
deriving DecidableEq

/-- Model of the resume branch of `AllamoTrainer.__init__` for a non-empty checkpoint
ledger: restore `processed_files` from the checkpoint, pop its last element (the file
that was in progress when the checkpoint was written), reload via
`load_next_dataset`, and restore `dataset_offset` verbatim. -/
def resume_restore {α : Type} [DecidableEq α] (usable : α → Bool)
    (catalog ledger : List α) (ckpt_offset : Nat) : CursorState α :=
  match loadNext usable catalog ledger.dropLast with
  | (true, p2, f) => { processed := p2, loadedFile := f, offset := ckpt_offset }
  | (false, p2, _) => { processed := p2, loadedFile := none, offset := ckpt_offset }

/-- State of `AllamoDataLoader` together with its train dataset's catalog and ledger. -/
structure LoaderState (α : Type) where
  catalog : List α
  processed : List α
  loadedFile : Option α
  offset : Nat
  epoch : Nat
deriving DecidableEq

/-- Model of `AllamoDataLoader.reload_dataset`.  `none` models the fatal
`assert dataset.load_next_dataset()` failure.  Note the `len(dataset.dataset_files) > 1`
guard: a single-file corpus never calls `load_next_dataset` here — it keeps the loaded
data and ledger and only resets the offset and bumps the epoch. -/
def reload_dataset {α : Type} [DecidableEq α] (usable : α → Bool) (s : LoaderState α) :
    Option (LoaderState α) :=
  if 1 < s.catalog.length then
    match loadNext usable s.catalog s.processed with
    | (true, p, f) => some { s with processed := p, loadedFile := f, offset := 0 }
    | (false, _, _) =>
      match loadNext usable s.catalog [] with
      | (true, p, f) =>
        some { s with processed := p, loadedFile := f, offset := 0, epoch := s.epoch + 1 }
      | (false, _, _) => none
  else
    some { s with offset := 0, epoch := s.epoch + 1 }

/-- The one-sample-at-a-time tail of `AllamoDataLoader.get_batch` (sequential branch),
specialized to a single-file corpus, for which `reload_dataset` resets the offset to 0
and increments the epoch while the loaded data stays the same list.  Arguments:
remaining sample count, current offset, current epoch.  Returns the drawn samples and
the final offset and epoch. -/
def seqSingles (data : List Nat) : Nat → Nat → Nat → List Nat × Nat × Nat
  | 0, off, ep => ([], off, ep)
  | b + 1, off, ep =>
    if data.length ≤ off then
      let rest := seqSingles data b 1 (ep + 1)
      (data.getD 0 0 :: rest.1, rest.2)
    else
      let rest := seqSingles data b (off + 1) ep
      (data.getD off 0 :: rest.1, rest.2)

/-- Model of `AllamoDataLoader.get_batch` on the sequential training path
(`random_samples=False`, `split='train'`, `dataset_seq_train=True`,
`dataset_buffer=False`) over a single-file corpus.  State is (offset, epoch). -/
def get_batch_seq (data : List Nat) (B : Nat) (s : Nat × Nat) : List Nat × Nat × Nat :=
  if s.1 + B ≤ data.length then
    (pySlice data s.1 (s.1 + B), s.1 + B, s.2)
  else
    seqSingles data B s.1 s.2

/-- Iterate `get_batch_seq` from offset 0, epoch 0, collecting the batches. -/
def runBatches (data : List Nat) (B : Nat) : Nat → List (List Nat) × Nat × Nat
  | 0 => ([], 0, 0)
  | m + 1 =>
    let prev := runBatches data B m
    let b := get_batch_seq data B prev.2
    (prev.1 ++ [b.1], b.2)

/-- A structured (instruction-format) sample as handled by the dict branch of
`AllamoDataset.pad_or_truncate_to_block_size`. -/
structure InstrSample where
  input_ids : List Int
  target_ids : Option (List Int)
  target_weights : Option (List Int)
deriving DecidableEq

/-- The effective `target_ids` of a structured sample before padding/truncation: the
provided field, or `input_ids[1:]` when the field is absent (line
`data[idx]['target_ids'] = data[idx]['input_ids'][1:]`). -/
def instrTargetBase (s : InstrSample) : List Int :=
  match s.target_ids with
  | some t => t
  | none => s.input_ids.drop 1

/-- The effective `target_weights` of a structured sample before padding/truncation
under weighted loss: the provided field, or the derivation
`torch.where(target_ids == ignore_index, 0, 1)`. -/
def instrWeightsBase (ignore_index : Int) (s : InstrSample) : List Int :=
  match s.target_weights with
  | some w => w
  | none => (instrTargetBase s).map fun t => if t = ignore_index then 0 else 1

/-- Model of the dict branch of `AllamoDataset.pad_or_truncate_to_block_size` applied
to one sample (`sample_size = block_size + 1`): derive `target_ids` from
`input_ids[1:]` when absent, derive `target_weights` from the ignore mask when absent
and weighted loss is on (delete it otherwise), then truncate each field to
`sample_size - 1 = block_size` when it is at least `sample_size` long, and — when
`pad_token_id >= 0` — pad shorter fields up to `block_size` (`input_ids` and
`target_ids` with `ignore_index`, `target_weights` with 0). -/
def pad_or_truncate_sample (block_size : Nat) (ignore_index pad_token_id : Int)
    (weighted_loss : Bool) (s : InstrSample) : InstrSample :=
  let sample_size := block_size + 1
  let input0 := s.input_ids
  let target0 := instrTargetBase s
  let weights0 : Option (List Int) :=
    if weighted_loss then some (instrWeightsBase ignore_index s)
    else none
  let input1 :=
    if sample_size ≤ input0.length then input0.take (sample_size - 1)
    else if 0 ≤ pad_token_id ∧ input0.length < sample_size - 1 then
      input0 ++ List.replicate (sample_size - 1 - input0.length) ignore_index
    else input0
  let target1 :=
    if sample_size ≤ target0.length then target0.take (sample_size - 1)
    else if 0 ≤ pad_token_id ∧ target0.length < sample_size - 1 then
      target0 ++ List.replicate (sample_size - 1 - target0.length) ignore_index
    else target0
  let weights1 := weights0.map fun w =>
    if sample_size ≤ w.length then w.take (sample_size - 1)
    else if 0 ≤ pad_token_id ∧ w.length < sample_size - 1 then
      w ++ List.replicate (sample_size - 1 - w.length) 0
    else w
  { input_ids := input1, target_ids := some target1, target_weights := weights1 }

/-- An ALM-format sample as consumed by `AllamoDataset.prepare_alm_sample`. -/
structure AlmSample where
  input_ids : List Int
  target_ids : List Int
  target_weights : Option (List Int)
  seq_lens : Option (List Nat)
deriving DecidableEq

/-- The record produced by `AllamoDataset.prepare_alm_sample`. -/
structure AlmResult where
  input_ids : List Int
  target_ids : List Int
  target_weights : Option (List Int)
  input_pos : Option (List Nat)
  attn_mask : Option (List (List Bool))
deriving DecidableEq

/-- Model of `torch.tril(torch.ones(n, n, dtype=torch.bool))`: the lower-triangular
all-ones boolean matrix. -/
def tril (n : Nat) : List (List Bool) :=
  (List.range n).map fun i => (List.range n).map fun j => decide (j ≤ i)

/-- Model of `torch.eye(n, n, dtype=torch.bool)`: the boolean identity matrix. -/
def eye (n : Nat) : List (List Bool) :=
  (List.range n).map fun i => (List.range n).map fun j => decide (j = i)

/-- Model of `torch.block_diag` on square boolean blocks. -/
def blockDiag : List (List (List Bool)) → List (List Bool)
  | [] => []
  | b :: rest =>
    let restD := blockDiag rest
    (b.map fun row => row ++ List.replicate restD.length false) ++
      restD.map fun row => List.replicate b.length false ++ row

/-- The effective `target_weights` of an ALM sample under weighted loss: the provided
field, or the derivation `torch.where(target_ids == ignore_index, 0, 1)`. -/
def almWeightsBase (ignore_index : Int) (s : AlmSample) : List Int :=
  match s.target_weights with
  | some w => w
  | none => s.target_ids.map fun t => if t = ignore_index then 0 else 1

/-- Model of `AllamoDataset.prepare_alm_sample` on the non-DPO path: convert fields,
derive `target_weights` from the ignore mask when weighted loss is on and the field is
absent, pad fields shorter than `block_size` when `pad_token_id >= 0` (`input_ids`
with `pad_token_id`, `target_ids` with `ignore_index`, `target_weights` with 0;
nothing is ever truncated here), and, when `seq_lens` is present, build `input_pos`
and the block-diagonal causal `attn_mask`.  The Python expression
`sample_input_pos[-1] + 1` raises on an empty position list, so it is rendered as
`getLastD 0 + 1`; the theorems about it assume a non-empty `seq_lens`. -/
def prepare_alm_sample (block_size : Nat) (ignore_index pad_token_id : Int)
    (weighted_loss : Bool) (s : AlmSample) : AlmResult :=
  let weights0 : Option (List Int) :=
    if weighted_loss then some (almWeightsBase ignore_index s)
    else none
  let input1 :=
    if 0 ≤ pad_token_id ∧ s.input_ids.length < block_size then
      s.input_ids ++ List.replicate (block_size - s.input_ids.length) pad_token_id
    else s.input_ids
  let target1 :=
    if 0 ≤ pad_token_id ∧ s.target_ids.length < block_size then
      s.target_ids ++ List.replicate (block_size - s.target_ids.length) ignore_index
    else s.target_ids
  let weights1 := weights0.map fun w =>
    if 0 ≤ pad_token_id ∧ w.length < block_size then
      w ++ List.replicate (block_size - w.length) 0
    else w
  match s.seq_lens with
  | none =>
    { input_ids := input1, target_ids := target1, target_weights := weights1,
      input_pos := none, attn_mask := none }
  | some lens =>
    let acc := lens.foldl
      (fun acc l => (acc.1 ++ List.range l, acc.2.1 + l, acc.2.2 ++ [tril l]))
      (([] : List Nat), (0 : Nat), ([] : List (List (List Bool))))
    let posBlocks :=
      if acc.2.1 < input1.length then
        (acc.1 ++ List.range' (acc.1.getLastD 0 + 1) (input1.length - acc.2.1),
          acc.2.2 ++ [eye (input1.length - acc.2.1)])
      else (acc.1, acc.2.2)
    { input_ids := input1, target_ids := target1, target_weights := weights1,
      input_pos := some posBlocks.1, attn_mask := some (blockDiag posBlocks.2) }

/-- The file list resolved by `AllamoDataset.get_dataset_files` before sorting:
an explicit train or validation file list when configured and non-empty, otherwise
the dataset directory's files filtered by supported extension and split prefix
(abstracted as `keep`, since it reads the file system), otherwise empty. -/
def selected_files {α : Type} (train_split : Bool) (train_files val_files : List α)
    (use_dir : Bool) (dir_files : List α) (keep : α → Bool) : List α :=
  if train_split && !train_files.isEmpty then train_files
  else if !train_split && !val_files.isEmpty then val_files
  else if use_dir then dir_files.filter keep
  else []

/-- The message of the exception raised by `AllamoDataset.get_dataset_files`. -/
def training_files_error : String :=
  "Training dataset files not found!"

/-- Model of `AllamoDataset.get_dataset_files`: sort the resolved list when non-empty
(Python `sorted`, a stable sort, rendered as insertion sort over a linear order);
raise when the training split resolves to no files; return the empty list for an
empty validation split. -/
def get_dataset_files {α : Type} [LinearOrder α] (train_split : Bool)
    (train_files val_files : List α) (use_dir : Bool) (dir_files : List α)
    (keep : α → Bool) : Except String (List α) :=
  let files := selected_files train_split train_files val_files use_dir dir_files keep
  if !files.isEmpty then Except.ok (files.insertionSort (· ≤ ·))
  else if train_split then Except.error training_files_error
  else Except.ok []

/-- State of the sequential loader with the one-slot prefetch buffer
(`dataset_buffer=True`), over a single-file corpus.  `buffer` holds the slot written
by `update_buffer` (precomputed batch and post-batch offset); `threadSpawned` records
whether `reload_buffer` started a worker.  Since `get_batch_from_buffer` asserts the
worker has finished before the slot is consumed, the slot is modelled as already
holding the worker's result. -/
structure BufSeqState where
  offset : Nat
  epoch : Nat
  buffer : Option (List Nat × Nat)
  threadSpawned : Bool
deriving DecidableEq

/-- Model of `AllamoDataLoader.update_buffer`: fill the slot with the batch assembled
from `data[offset : offset + B]` together with the post-batch offset. -/
def update_buffer (data : List Nat) (B off : Nat) : List Nat × Nat :=
  (pySlice data off (off + B), off + B)

/-- Model of `AllamoDataLoader.reload_buffer` (joined with the completion of the
worker it spawns): clear the slot, then start a worker — which will run
`update_buffer` — exactly when the next full batch fits in the loaded file. -/
def reload_buffer (data : List Nat) (B off : Nat) : Option (List Nat × Nat) × Bool :=
  if off + B ≤ data.length then (some (update_buffer data B off), true) else (none, false)

/-- Model of `AllamoDataLoader.get_batch` on the sequential training path with
`dataset_buffer=True`, over a single-file corpus: consume the slot when it is filled
(`get_batch_from_buffer`, adopting the stored offset), otherwise assemble the batch
synchronously; afterwards run `reload_buffer`. -/
def get_batch_buffered (data : List Nat) (B : Nat) (s : BufSeqState) :
    List Nat × BufSeqState :=
  match s.buffer with
  | some slot =>
    let rb := reload_buffer data B slot.2
    (slot.1, { offset := slot.2, epoch := s.epoch, buffer := rb.1, threadSpawned := rb.2 })
  | none =>
    if s.offset + B ≤ data.length then
      let rb := reload_buffer data B (s.offset + B)
      (pySlice data s.offset (s.offset + B),
        { offset := s.offset + B, epoch := s.epoch, buffer := rb.1, threadSpawned := rb.2 })
    else
      let r := seqSingles data B s.offset s.epoch
      let rb := reload_buffer data B r.2.1
      (r.1, { offset := r.2.1, epoch := r.2.2, buffer := rb.1, threadSpawned := rb.2 })

/-- Model of the dataset selection at the top of `AllamoDataLoader.get_batch`:
`if split == 'train' or self.val_dataset is None: dataset = self.train_dataset`. -/
def select_dataset (split : String) (train_data : List Nat)
    (val_data : Option (List Nat)) : List Nat :=
  if split = "train" ∨ val_data = none then train_data else val_data.getD []

/-- Model of the random-sampling tail of `AllamoDataLoader.get_batch` (taken for any
non-train split, and for `random_samples=True`): the drawn random indices `idxs`
(`torch.randint(len(dataset), (batch_size,))`) are looked up in the selected
dataset. -/
def get_batch_random (split : String) (train_data : List Nat)
    (val_data : Option (List Nat)) (idxs : List Nat) : List Nat :=
  idxs.map fun i => (select_dataset split train_data val_data).getD i 0

/-! ## Helper lemmas about Python-style slicing -/

theorem everyNth_nil {α : Type} (step : Nat) : everyNth step ([] : List α) = [] := by
  simp [everyNth]

theorem everyNth_cons {α : Type} (step : Nat) (a : α) (l : List α) :
    everyNth step (a :: l) = a :: everyNth step (l.drop (step - 1)) := by
  simp [everyNth]

theorem everyNth_getElem? {α : Type} (step : Nat) (hstep : 1 ≤ step) :
    ∀ (n : Nat) (l : List α), l.length ≤ n → ∀ (k : Nat),
      (everyNth step l)[k]? = l[k * step]? := by
  intro n
  induction n with
  | zero =>
    intro l hl k
    have hnil : l = [] := List.eq_nil_of_length_eq_zero (Nat.le_zero.mp hl)
    subst hnil
    simp [everyNth_nil]
  | succ n ih =>
    intro l hl k
    cases l with
    | nil => simp [everyNth_nil]
    | cons a t =>
      rw [everyNth_cons]
      cases k with
      | zero => simp
      | succ k =>
        have hlen : (t.drop (step - 1)).length ≤ n := by
          simp only [List.length_drop]
          simp only [List.length_cons] at hl
          omega
        rw [List.getElem?_cons_succ, ih _ hlen k, List.getElem?_drop]
        have harith : (k + 1) * step = (step - 1 + k * step) + 1 := by
          have : (k + 1) * step = step + k * step := by ring
          omega
        rw [harith, List.getElem?_cons_succ]

theorem everyNth_length {α : Type} (step : Nat) (hstep : 1 ≤ step) :
    ∀ (n : Nat) (l : List α), l.length ≤ n →
      (everyNth step l).length = (l.length + step - 1) / step := by
  intro n
  induction n with
  | zero =>
    intro l hl
    have hnil : l = [] := List.eq_nil_of_length_eq_zero (Nat.le_zero.mp hl)
    subst hnil
    simp [everyNth_nil]
    rw [Nat.div_eq_of_lt (by omega)]
  | succ n ih =>
    intro l hl
    cases l with
    | nil =>
      simp [everyNth_nil]
      rw [Nat.div_eq_of_lt (by omega)]
    | cons a t =>
      rw [everyNth_cons]
      simp only [List.length_cons]
      have hlen : (t.drop (step - 1)).length ≤ n := by
        simp only [List.length_drop]
        simp only [List.length_cons] at hl
        omega
      rw [ih _ hlen]
      simp only [List.length_drop]
      rcases le_or_lt (step - 1) t.length with hc | hc
      · have h1 : t.length - (step - 1) + step - 1 = t.length := by omega
        have h2 : t.length + 1 + step - 1 = t.length + step := by omega
        rw [h1, h2, Nat.add_div_right _ (by omega)]
      · have h1 : t.length - (step - 1) = 0 := by omega
        have h2 : t.length + 1 + step - 1 = t.length + step := by omega
        rw [h1, h2]
        have h3 : (0 + step - 1) / step = 0 := Nat.div_eq_of_lt (by omega)
        rw [h3]
        have h4 : (t.length + step) / step = 1 := by
          apply Nat.div_eq_of_lt_le
          · omega
          · omega
        rw [h4]

theorem pyStride_chunk {α : Type} (step r : Nat) (l t : List α)
    (hl : l.length = step) (hr : r < step) :
    pyStride r step (l ++ t) = (l.drop r).take 1 ++ pyStride r step t := by
  unfold pyStride
  rw [List.drop_append_eq_append_drop]
  have hr0 : r - l.length = 0 := by omega
  rw [hr0, List.drop_zero]
  obtain ⟨x, xs, hx⟩ : ∃ x xs, l.drop r = x :: xs := by
    cases hcase : l.drop r with
    | nil =>
      exfalso
      have := congrArg List.length hcase
      simp only [List.length_drop, List.length_nil] at this
      omega
    | cons x xs => exact ⟨x, xs, rfl⟩
  have hxs : xs.length = step - r - 1 := by
    have := congrArg List.length hx
    simp only [List.length_drop, List.length_cons] at this
    omega
  rw [hx, List.cons_append, everyNth_cons]
  rw [List.drop_append_eq_append_drop]
  have h1 : xs.drop (step - 1) = [] := List.drop_eq_nil_of_le (by omega)
  have h2 : step - 1 - xs.length = r := by omega
  rw [h1, h2, List.nil_append]
  rfl

theorem drop_take_one_sum {α : Type} (l : List α) :
    Finset.sum (Finset.range l.length)
      (fun r => ((l.drop r).take 1 : Multiset α)) = (l : Multiset α) := by
  induction l with
  | nil => simp
  | cons a t ih =>
    rw [List.length_cons, Finset.sum_range_succ']
    simp only [List.drop_succ_cons]
    rw [ih]
    simp only [List.drop_zero, List.take_succ_cons, List.take_zero]
    have hperm : (t ++ [a]).Perm (a :: t) := List.perm_append_singleton a t
    calc (t : Multiset α) + ([a] : List α)
        = ((t ++ [a] : List α) : Multiset α) := by
          rw [← Multiset.coe_add]
      _ = ((a :: t : List α) : Multiset α) := Multiset.coe_eq_coe.mpr hperm

theorem drop_take_one_sum_of_length {α : Type} (l : List α) (n : Nat) (h : l.length = n) :
    Finset.sum (Finset.range n)
      (fun r => ((l.drop r).take 1 : Multiset α)) = (l : Multiset α) := by
  subst h
  exact drop_take_one_sum l

theorem pyStride_multiset_sum {α : Type} (step : Nat) (_hstep : 1 ≤ step) :
    ∀ (n : Nat) (s : List α), s.length = step * n →
      Finset.sum (Finset.range step)
        (fun r => (pyStride r step s : Multiset α)) = (s : Multiset α) := by
  intro n
  induction n with
  | zero =>
    intro s hs
    have hnil : s = [] := by
      apply List.eq_nil_of_length_eq_zero
      simpa using hs
    subst hnil
    simp [pyStride, everyNth_nil]
  | succ n ih =>
    intro s hs
    have hstep_le : step ≤ s.length := by
      rw [hs, Nat.mul_succ]
      omega
    have hchunk : (s.take step).length = step := by
      simp only [List.length_take]
      omega
    have hrest : (s.drop step).length = step * n := by
      simp only [List.length_drop]
      rw [hs, Nat.mul_succ]
      omega
    have hsplit : s.take step ++ s.drop step = s := List.take_append_drop step s
    calc Finset.sum (Finset.range step) (fun r => (pyStride r step s : Multiset α))
        = Finset.sum (Finset.range step)
            (fun r => (((s.take step).drop r).take 1 : Multiset α) +
              (pyStride r step (s.drop step) : Multiset α)) := by
          apply Finset.sum_congr rfl
          intro r hr
          rw [Finset.mem_range] at hr
          conv_lhs => rw [← hsplit]
          rw [pyStride_chunk step r _ _ hchunk hr, ← Multiset.coe_add]
      _ = Finset.sum (Finset.range step)
            (fun r => (((s.take step).drop r).take 1 : Multiset α)) +
          Finset.sum (Finset.range step)
            (fun r => (pyStride r step (s.drop step) : Multiset α)) :=
          Finset.sum_add_distrib
      _ = (s.take step : Multiset α) + (s.drop step : Multiset α) := by
          rw [ih _ hrest, drop_take_one_sum_of_length _ _ hchunk]
      _ = (s : Multiset α) := by
          rw [Multiset.coe_add, hsplit]

/-- C1: for every `world_size ≥ 1`, every rank `r < world_size` and every sample list
whose length is a multiple of `world_size`, `limit_samples_to_rank` keeps exactly the
samples at indices `r, r + world_size, r + 2·world_size, …` in order (shard element
`k` is input element `r + k·world_size`, and the shard length is
`length / world_size`), and the multiset union of the `world_size` shards reproduces
the sample list exactly once — so the shards are pairwise disjoint, order-preserving
slots of a partition. -/
theorem limit_samples_to_rank_partition {α : Type} (world_size : Nat) (samples : List α)
    (hws : 1 ≤ world_size) (hlen : samples.length % world_size = 0) :
    (∀ r, r < world_size →
      (limit_samples_to_rank r world_size samples).length =
        samples.length / world_size ∧
      ∀ k, (limit_samples_to_rank r world_size samples)[k]? =
        samples[r + k * world_size]?) ∧
    Finset.sum (Finset.range world_size)
        (fun r => (limit_samples_to_rank r world_size samples : Multiset α)) =
      (samples : Multiset α) := by
  obtain ⟨m, hm⟩ : ∃ m, samples.length = world_size * m :=
    ⟨samples.length / world_size, by
      rw [Nat.mul_div_cancel' (Nat.dvd_of_mod_eq_zero hlen)]⟩
  rcases Nat.lt_or_ge 1 world_size with hgt | hle1
  · constructor
    · intro r hr
      constructor
      · unfold limit_samples_to_rank
        rw [if_pos hgt]
        unfold pyStride
        rw [everyNth_length world_size (by omega) (samples.drop r).length _ le_rfl]
        simp only [List.length_drop]
        have hdiv : samples.length / world_size = m := by
          rw [hm, Nat.mul_div_cancel_left _ (by omega)]
        rw [hdiv, hm]
        rcases Nat.eq_zero_or_pos m with hm0 | hmpos
        · subst hm0
          simp only [Nat.mul_zero, Nat.zero_sub, Nat.zero_add]
          exact Nat.div_eq_of_lt (by omega)
        · have hp : world_size ≤ world_size * m := by
            calc world_size = world_size * 1 := by ring
              _ ≤ world_size * m := Nat.mul_le_mul_left _ hmpos
          have hlow : m * world_size ≤ world_size * m - r + world_size - 1 := by
            have : m * world_size = world_size * m := by ring
            omega
          have hhigh : world_size * m - r + world_size - 1 < (m + 1) * world_size := by
            have : (m + 1) * world_size = world_size * m + world_size := by ring
            omega
          exact Nat.div_eq_of_lt_le hlow hhigh
      · intro k
        unfold limit_samples_to_rank
        rw [if_pos hgt]
        unfold pyStride
        rw [everyNth_getElem? world_size (by omega) (samples.drop r).length _ le_rfl k]
        rw [List.getElem?_drop]
    · unfold limit_samples_to_rank
      simp only [if_pos hgt]
      exact pyStride_multiset_sum world_size (by omega) m samples hm
  · have hws1 : world_size = 1 := by omega
    subst hws1
    constructor
    · intro r hr
      have hr0 : r = 0 := by omega
      subst hr0
      unfold limit_samples_to_rank
      rw [if_neg (by omega)]
      constructor
      · simp
      · intro k
        simp
    · rw [Finset.sum_range_one]
      unfold limit_samples_to_rank
      rw [if_neg (by omega)]

/-- Witness for C1: `world_size = 2` on a concrete list of four samples. -/
theorem limit_samples_to_rank_partition_witness :
    (1 ≤ 2 ∧ ([10, 20, 30, 40] : List Nat).length % 2 = 0) ∧
    ((∀ r, r < 2 →
      (limit_samples_to_rank r 2 ([10, 20, 30, 40] : List Nat)).length =
        ([10, 20, 30, 40] : List Nat).length / 2 ∧
      ∀ k, (limit_samples_to_rank r 2 ([10, 20, 30, 40] : List Nat))[k]? =
        ([10, 20, 30, 40] : List Nat)[r + k * 2]?) ∧
    Finset.sum (Finset.range 2)
        (fun r => (limit_samples_to_rank r 2 ([10, 20, 30, 40] : List Nat) : Multiset Nat)) =
      (([10, 20, 30, 40] : List Nat) : Multiset Nat)) :=
  ⟨⟨by decide, by decide⟩,
    limit_samples_to_rank_partition 2 [10, 20, 30, 40] (by decide) (by decide)⟩

/-! ## Checkpoint resume (C2) -/

theorem loadNext_cons_of_not_mem {α : Type} [DecidableEq α] (usable : α → Bool) :
    ∀ (t : List α) (a : α) (p : List α), a ∉ t →
      loadNext usable t (a :: p) =
        ((loadNext usable t p).1, a :: (loadNext usable t p).2.1,
          (loadNext usable t p).2.2) := by
  intro t
  induction t with
  | nil =>
    intro a p _
    simp [loadNext]
  | cons f rest ih =>
    intro a p ha
    have hfa : ¬a = f := by
      intro h
      exact ha (h ▸ List.mem_cons_self f rest)
    have harest : a ∉ rest := fun h => ha (List.mem_cons_of_mem f h)
    simp only [loadNext]
    by_cases hmem : f ∈ p
    · have hmem' : f ∈ a :: p := List.mem_cons_of_mem a hmem
      rw [if_pos hmem', if_pos hmem]
      exact ih a p harest
    · have hmem' : f ∉ a :: p := by
        intro h
        rcases List.mem_cons.mp h with h | h
        · exact hfa h.symm
        · exact hmem h
      rw [if_neg hmem', if_neg hmem]
      by_cases hu : usable f
      · rw [if_pos hu, if_pos hu]
        rfl
      · rw [if_neg hu, if_neg hu]
        have hconsapp : (a :: p) ++ [f] = a :: (p ++ [f]) := rfl
        rw [hconsapp]
        exact ih a (p ++ [f]) harest

theorem loadNext_take_prefix {α : Type} [DecidableEq α] (usable : α → Bool) :
    ∀ (l : List α) (n : Nat), l.Nodup → (∀ f ∈ l, usable f = true) →
      n < l.length →
      loadNext usable l (l.take n) = (true, l.take (n + 1), l[n]?) := by
  intro l
  induction l with
  | nil =>
    intro n _ _ h
    simp at h
  | cons a t ih =>
    intro n hnd hu h
    have hat : a ∉ t := (List.nodup_cons.mp hnd).1
    cases n with
    | zero =>
      simp only [List.take_zero, loadNext]
      rw [if_neg (List.not_mem_nil a)]
      rw [if_pos (hu a (List.mem_cons_self a t))]
      simp
    | succ n =>
      simp only [List.take_succ_cons, loadNext]
      rw [if_pos (List.mem_cons_self a (t.take n))]
      rw [loadNext_cons_of_not_mem usable t a (t.take n) hat]
      rw [ih n (List.nodup_cons.mp hnd).2
        (fun f hf => hu f (List.mem_cons_of_mem a hf))
        (by simp only [List.length_cons] at h; omega)]
      simp

/-- C2: restoring a mid-file checkpoint whose ledger lists, in catalog order, the
`n ≥ 1` files consumed so far (`catalog.take n`, the last being in progress) pops the
ledger's last entry, reloads exactly that file — the first catalog file not in the
shortened ledger, which is also the saved ledger's last entry — rebuilds the same
ledger, and restores the dataset offset verbatim, so the resumed cursor points at the
same offset in the same file as when the checkpoint was saved.  Assumes a
duplicate-free catalog whose files all load. -/
theorem resume_restores_cursor {α : Type} [DecidableEq α] (usable : α → Bool)
    (catalog : List α) (n : Nat) (off : Nat)
    (hnd : catalog.Nodup) (husable : ∀ f ∈ catalog, usable f = true)
    (hn : 1 ≤ n) (hle : n ≤ catalog.length) :
    resume_restore usable catalog (catalog.take n) off =
      { processed := catalog.take n, loadedFile := catalog[n - 1]?, offset := off } ∧
    (catalog.take n).getLast? = catalog[n - 1]? := by
  have hdl : (catalog.take n).dropLast = catalog.take (n - 1) := by
    rw [List.dropLast_eq_take, List.take_take]
    congr 1
    simp only [List.length_take]
    omega
  have hload : loadNext usable catalog (catalog.take (n - 1)) =
      (true, catalog.take n, catalog[n - 1]?) := by
    have := loadNext_take_prefix usable catalog (n - 1) hnd husable (by omega)
    have hsucc : n - 1 + 1 = n := by omega
    rw [hsucc] at this
    exact this
  constructor
  · unfold resume_restore
    rw [hdl, hload]
  · rw [List.getLast?_eq_getElem?]
    simp only [List.length_take]
    rw [List.getElem?_take_of_lt (by omega)]
    congr 1
    omega

/-- Witness for C2: a three-file catalog with two files in the ledger, offset 7. -/
theorem resume_restores_cursor_witness :
    (([1, 2, 3] : List Nat).Nodup ∧ 1 ≤ 2 ∧ 2 ≤ ([1, 2, 3] : List Nat).length) ∧
    (resume_restore (fun _ => true) ([1, 2, 3] : List Nat)
        (([1, 2, 3] : List Nat).take 2) 7 =
      { processed := ([1, 2, 3] : List Nat).take 2,
        loadedFile := ([1, 2, 3] : List Nat)[2 - 1]?, offset := 7 } ∧
    (([1, 2, 3] : List Nat).take 2).getLast? = ([1, 2, 3] : List Nat)[2 - 1]?) :=
  ⟨⟨by decide, by decide, by decide⟩,
    resume_restores_cursor (fun _ => true) [1, 2, 3] 2 7 (by decide)
      (fun f _ => rfl) (by decide) (by decide)⟩

/-! ## Epoch rollover (C3) -/

/-- C3 counterexample: on a single-file corpus (`dataset_files = [7]`, fully
processed), `reload_dataset` does not clear the processed-files ledger — the
`len(dataset.dataset_files) > 1` guard skips the clearing entirely — it only resets
the offset and increments the epoch, so the ledger stays `[7]`, contradicting the
claim that every exhaustion (including single-file corpora) clears the ledger. -/
theorem reload_single_file_keeps_ledger :
    reload_dataset (fun _ => true)
        ({ catalog := [7], processed := [7], loadedFile := some 7,
           offset := 3, epoch := 0 } : LoaderState Nat) =
      some { catalog := [7], processed := [7], loadedFile := some 7,
             offset := 0, epoch := 1 } ∧
    ¬([7] : List Nat) = [] := by
  constructor
  · decide
  · decide

/-- C3 (amended): for a multi-file catalog, when no unprocessed file loads, rollover
clears the ledger, reloads from the full file set, increments the epoch by exactly
one, and fails fatally when reloading still yields nothing; when a next unprocessed
file does load mid-epoch, the epoch is not incremented.  A single-file corpus skips
the ledger clearing and the reload entirely: it keeps its ledger and loaded data and
only resets the offset and increments the epoch. -/
theorem reload_dataset_epoch_rollover {α : Type} [DecidableEq α] (usable : α → Bool)
    (s : LoaderState α) :
    (s.catalog.length ≤ 1 →
      reload_dataset usable s = some { s with offset := 0, epoch := s.epoch + 1 }) ∧
    (∀ p f, 1 < s.catalog.length →
      loadNext usable s.catalog s.processed = (true, p, f) →
      reload_dataset usable s =
        some { s with processed := p, loadedFile := f, offset := 0 }) ∧
    (1 < s.catalog.length → (loadNext usable s.catalog s.processed).1 = false →
      (∀ p f, loadNext usable s.catalog [] = (true, p, f) →
        reload_dataset usable s =
          some { s with processed := p, loadedFile := f, offset := 0, epoch := s.epoch + 1 }) ∧
      ((loadNext usable s.catalog []).1 = false →
        reload_dataset usable s = none)) := by
  refine ⟨?_, ?_, ?_⟩
  · intro h
    unfold reload_dataset
    rw [if_neg (by omega)]
  · intro p f h hload
    unfold reload_dataset
    rw [if_pos h, hload]
  · intro h hfail
    rcases hL : loadNext usable s.catalog s.processed with ⟨b, p', f'⟩
    rw [hL] at hfail
    simp only at hfail
    subst hfail
    constructor
    · intro p f hload2
      unfold reload_dataset
      rw [if_pos h, hL, hload2]
    · intro hfail2
      rcases hL2 : loadNext usable s.catalog [] with ⟨b2, p2, f2⟩
      rw [hL2] at hfail2
      simp only at hfail2
      subst hfail2
      unfold reload_dataset
      rw [if_pos h, hL, hL2]

/-- Witness for C3 (amended), multi-file exhausted-epoch case: catalog `[1, 2]` fully
processed, every file loadable — the ledger is cleared and rebuilt as `[1]`, file 1
is reloaded, the offset resets and the epoch increments from 3 to 4. -/
theorem reload_dataset_epoch_rollover_witness :
    reload_dataset (fun _ => true)
        ({ catalog := [1, 2], processed := [1, 2], loadedFile := some 2,
           offset := 5, epoch := 3 } : LoaderState Nat) =
      some { catalog := [1, 2], processed := [1], loadedFile := some 1,
             offset := 0, epoch := 4 } := by
  have h := reload_dataset_epoch_rollover (fun _ => true)
    ({ catalog := [1, 2], processed := [1, 2], loadedFile := some 2,
       offset := 5, epoch := 3 } : LoaderState Nat)
  exact (h.2.2 (by decide) (by decide)).1 [1] (some 1) (by decide)

/-! ## Sequential cursor over a single-file corpus (C4) -/

theorem pySlice_eq_map {α : Type} (l : List α) (d : α) (a n : Nat) (h : a + n ≤ l.length) :
    pySlice l a (a + n) = (List.range n).map (fun i => l.getD (a + i) d) := by
  apply List.ext_getElem?
  intro i
  unfold pySlice
  have hsub : a + n - a = n := by omega
  rw [hsub, List.getElem?_map]
  rcases Nat.lt_or_ge i n with hi | hi
  · rw [List.getElem?_take_of_lt hi, List.getElem?_drop, List.getElem?_range hi]
    rw [List.getElem?_eq_getElem (by omega)]
    simp only [Option.map_some']
    rw [List.getD_eq_getElem l d (by omega)]
  · rw [List.getElem?_eq_none, List.getElem?_eq_none]
    · rfl
    · simpa using hi
    · simp only [List.length_take, List.length_drop]
      omega

theorem map_getD_range {α : Type} (l : List α) (d : α) :
    (List.range l.length).map (fun j => l.getD j d) = l := by
  apply List.ext_getElem?
  intro i
  rw [List.getElem?_map]
  rcases Nat.lt_or_ge i l.length with hi | hi
  · rw [List.getElem?_range hi, List.getElem?_eq_getElem hi]
    simp only [Option.map_some']
    rw [List.getD_eq_getElem l d hi]
  · rw [List.getElem?_eq_none (by simpa using hi), List.getElem?_eq_none hi]
    rfl

theorem flatten_of_blocks (g : Nat → Nat) (B : Nat) :
    ∀ m, ((List.range m).map (fun t =>
        (List.range B).map (fun i => g (t * B + i)))).flatten =
      (List.range (m * B)).map g := by
  intro m
  induction m with
  | zero => simp
  | succ m ih =>
    rw [List.range_succ, List.map_append, List.flatten_append, ih]
    have hmul : (m + 1) * B = m * B + B := by ring
    rw [hmul, List.range_add, List.map_append]
    simp only [List.map_cons, List.map_nil, List.flatten_cons, List.flatten_nil,
      List.append_nil, List.map_map]
    rfl

theorem seqSingles_no_reload (data : List Nat) :
    ∀ (b off ep : Nat), off + b ≤ data.length →
      seqSingles data b off ep =
        ((List.range b).map (fun i => data.getD (off + i) 0), off + b, ep) := by
  intro b
  induction b with
  | zero =>
    intro off ep _
    simp [seqSingles]
  | succ b ih =>
    intro off ep h
    simp only [seqSingles]
    rw [if_neg (by omega)]
    rw [ih (off + 1) ep (by omega)]
    simp only [Prod.mk.injEq]
    refine ⟨?_, by omega, trivial⟩
    rw [List.range_succ_eq_map, List.map_cons, List.map_map]
    simp only [Nat.add_zero]
    congr 1
    apply List.map_congr_left
    intro i _
    simp only [Function.comp_apply]
    congr 1
    omega

theorem seqSingles_wrap (data : List Nat) :
    ∀ (b off ep : Nat), off ≤ data.length → data.length < off + b →
      b ≤ data.length →
      seqSingles data b off ep =
        ((List.range b).map (fun i => data.getD ((off + i) % data.length) 0),
          off + b - data.length, ep + 1) := by
  intro b
  induction b with
  | zero =>
    intro off ep h1 h2 _
    omega
  | succ b ih =>
    intro off ep h1 h2 h3
    by_cases hoff : data.length ≤ off
    · have hoffK : off = data.length := by omega
      simp only [seqSingles]
      rw [if_pos hoff]
      rw [seqSingles_no_reload data b 1 (ep + 1) (by omega)]
      simp only [Prod.mk.injEq]
      refine ⟨?_, by omega, trivial⟩
      rw [List.range_succ_eq_map, List.map_cons, List.map_map]
      simp only [hoffK, Nat.add_zero, Nat.mod_self]
      congr 1
      apply List.map_congr_left
      intro i hi
      rw [List.mem_range] at hi
      simp only [Function.comp_apply]
      have hm : (data.length + Nat.succ i) % data.length = Nat.succ i := by
        rw [Nat.add_mod_left]
        exact Nat.mod_eq_of_lt (by omega)
      rw [hm]
      congr 1
      omega
    · have hlt : off < data.length := by omega
      simp only [seqSingles]
      rw [if_neg hoff]
      rw [ih (off + 1) ep (by omega) (by omega) (by omega)]
      simp only [Prod.mk.injEq]
      refine ⟨?_, by omega, trivial⟩
      rw [List.range_succ_eq_map, List.map_cons, List.map_map]
      simp only [Nat.add_zero, Nat.mod_eq_of_lt hlt]
      congr 1
      apply List.map_congr_left
      intro i _
      simp only [Function.comp_apply]
      congr 2
      omega

theorem get_batch_seq_def (data : List Nat) (B off ep : Nat) :
    get_batch_seq data B (off, ep) =
      if off + B ≤ data.length then (pySlice data off (off + B), off + B, ep)
      else seqSingles data B off ep := rfl

theorem runBatches_succ_fst (data : List Nat) (B m : Nat) :
    (runBatches data B (m + 1)).1 =
      (runBatches data B m).1 ++
        [(get_batch_seq data B (runBatches data B m).2).1] := rfl

theorem runBatches_succ_snd (data : List Nat) (B m : Nat) :
    (runBatches data B (m + 1)).2 =
      (get_batch_seq data B (runBatches data B m).2).2 := rfl

theorem runBatches_closed (data : List Nat) (B : Nat) (hB : 1 ≤ B)
    (hBK : B < data.length) :
    ∀ m, (runBatches data B m).1 =
        (List.range m).map (fun t =>
          (List.range B).map (fun i => data.getD ((t * B + i) % data.length) 0)) ∧
      (runBatches data B m).2 =
        (if m = 0 then ((0 : Nat), (0 : Nat))
         else (m * B - data.length * ((m * B - 1) / data.length),
           (m * B - 1) / data.length)) := by
  intro m
  induction m with
  | zero =>
    constructor <;> simp [runBatches]
  | succ m ih =>
    obtain ⟨ih1, ih2⟩ := ih
    by_cases hm0 : m = 0
    · subst hm0
      rw [runBatches_succ_fst, runBatches_succ_snd]
      have h0fst : (runBatches data B 0).1 = [] := rfl
      have h0snd : (runBatches data B 0).2 = ((0 : Nat), (0 : Nat)) := rfl
      rw [h0fst, h0snd, get_batch_seq_def, if_pos (by omega)]
      have hps := pySlice_eq_map data 0 0 B (by omega)
      constructor
      · dsimp only
        rw [hps]
        simp only [List.range_succ, List.range_zero, List.map_append, List.map_cons,
          List.map_nil, List.nil_append]
        congr 1
        apply List.map_congr_left
        intro i hi
        rw [List.mem_range] at hi
        have h1 : 0 * B + i = i := by omega
        rw [h1, Nat.mod_eq_of_lt (by omega), Nat.zero_add]
      · dsimp only
        rw [if_neg (by omega : ¬(1 : Nat) = 0)]
        have h3 : (1 * B - 1) / data.length = 0 := Nat.div_eq_of_lt (by omega)
        rw [h3]
        simp only [Prod.mk.injEq]
        exact ⟨by omega, by trivial⟩
    · rw [runBatches_succ_fst, runBatches_succ_snd, ih1, ih2, if_neg hm0]
      rw [get_batch_seq_def]
      set K := data.length with hKdef
      set e := (m * B - 1) / K with hedef
      set o := m * B - K * e with hodef
      have hK1 : 1 ≤ K := by omega
      have hdm : K * e + (m * B - 1) % K = m * B - 1 := Nat.div_add_mod (m * B - 1) K
      have hrlt : (m * B - 1) % K < K := Nat.mod_lt _ (by omega)
      have hT1 : 1 ≤ m * B := by
        have h := Nat.mul_le_mul (show 1 ≤ m by omega) hB
        omega
      have ho1 : 1 ≤ o := by omega
      have hoK : o ≤ K := by omega
      have hmul1 : (m + 1) * B = m * B + B := by ring
      have hKe1 : K * (e + 1) = K * e + K := by ring
      by_cases hfit : o + B ≤ K
      · rw [if_pos hfit]
        have hps := pySlice_eq_map data 0 o B (by omega)
        constructor
        · dsimp only
          rw [hps, List.range_succ, List.map_append]
          congr 2
          apply List.map_congr_left
          intro i hi
          rw [List.mem_range] at hi
          have h1 : m * B + i = K * e + (o + i) := by omega
          rw [h1, Nat.mul_add_mod, Nat.mod_eq_of_lt (by omega)]
        · dsimp only
          rw [if_neg (by omega : ¬m + 1 = 0)]
          have he2 : ((m + 1) * B - 1) / K = e := by
            rw [hmul1]
            have h2 : m * B + B - 1 = K * e + (o + B - 1) := by omega
            rw [h2, Nat.mul_add_div (by omega)]
            have h3 : (o + B - 1) / K = 0 := Nat.div_eq_of_lt (by omega)
            omega
          rw [he2]
          simp only [Prod.mk.injEq]
          exact ⟨by omega, by trivial⟩
      · rw [if_neg hfit]
        rw [seqSingles_wrap data B o e hoK (by omega) (by omega)]
        constructor
        · dsimp only
          rw [List.range_succ, List.map_append]
          congr 2
          apply List.map_congr_left
          intro i hi
          rw [List.mem_range] at hi
          have h1 : m * B + i = K * e + (o + i) := by omega
          rw [h1, Nat.mul_add_mod]
        · dsimp only
          rw [if_neg (by omega : ¬m + 1 = 0)]
          have he2 : ((m + 1) * B - 1) / K = e + 1 := by
            rw [hmul1]
            have h2 : m * B + B - 1 = K * (e + 1) + (o + B - 1 - K) := by omega
            rw [h2, Nat.mul_add_div (by omega)]
            have h3 : (o + B - 1 - K) / K = 0 := Nat.div_eq_of_lt (by omega)
            omega
          rw [he2]
          simp only [Prod.mk.injEq]
          exact ⟨by omega, by trivial⟩

/-- C4: sequential training over a single-file corpus of `K = data.length` samples
with constant batch size `B < K`, offset 0, prefetch disabled.  The concatenated
batch stream is exactly the cyclic walk `j ↦ data[j % K]` (conjunct 1), so its first
`K` entries are the whole file in order — every sample is visited once before any
sample is visited a second time (conjunct 2).  After `m ≥ 1` batches the cursor is
`(m·B − K·e, e)` with epoch counter `e = (m·B − 1) / K` (conjunct 3); when `B`
divides `K` the epoch counter after `m` batches is `(m − 1) / (K / B)`, i.e. it
increments exactly once every `K / B = ceil(K / B)` batches (conjunct 4); otherwise
the epoch counter first increments during batch `K / B + 1 = ceil(K / B)`, the
wrapped batch, which spans stream positions `K − 1` (the file's last sample) and `K`
(the file's first sample again), mixing end-of-epoch and start-of-epoch samples
(conjunct 5). -/
theorem seq_single_file_visits_and_epochs (data : List Nat) (B : Nat)
    (hB : 1 ≤ B) (hBK : B < data.length) :
    (∀ m, (runBatches data B m).1.flatten =
        (List.range (m * B)).map (fun j => data.getD (j % data.length) 0)) ∧
    (∀ m, data.length ≤ m * B →
        ((runBatches data B m).1.flatten).take data.length = data) ∧
    (∀ m, ¬m = 0 → (runBatches data B m).2 =
        (m * B - data.length * ((m * B - 1) / data.length),
          (m * B - 1) / data.length)) ∧
    (data.length % B = 0 → ∀ m, ¬m = 0 →
        ((runBatches data B m).2).2 = (m - 1) / (data.length / B)) ∧
    (¬data.length % B = 0 →
        ((runBatches data B (data.length / B)).2).2 = 0 ∧
        ((runBatches data B (data.length / B + 1)).2).2 = 1 ∧
        data.length / B * B ≤ data.length - 1 ∧
        data.length < (data.length / B + 1) * B ∧
        ((runBatches data B (data.length / B + 1)).1.flatten)[data.length - 1]? =
          data[data.length - 1]? ∧
        ((runBatches data B (data.length / B + 1)).1.flatten)[data.length]? =
          data[0]?) := by
  have hcl := runBatches_closed data B hB hBK
  have hstream : ∀ m, (runBatches data B m).1.flatten =
      (List.range (m * B)).map (fun j => data.getD (j % data.length) 0) := by
    intro m
    rw [(hcl m).1]
    exact flatten_of_blocks (fun j => data.getD (j % data.length) 0) B m
  have hsnd : ∀ m, ¬m = 0 → (runBatches data B m).2 =
      (m * B - data.length * ((m * B - 1) / data.length),
        (m * B - 1) / data.length) := by
    intro m hm
    rw [(hcl m).2, if_neg hm]
  refine ⟨hstream, ?_, hsnd, ?_, ?_⟩
  · intro m hm
    rw [hstream m, ← List.map_take, List.take_range]
    have hmin : min data.length (m * B) = data.length := Nat.min_eq_left hm
    rw [hmin]
    have hcong : (List.range data.length).map
        (fun j => data.getD (j % data.length) 0) =
        (List.range data.length).map (fun j => data.getD j 0) := by
      apply List.map_congr_left
      intro j hj
      rw [List.mem_range] at hj
      rw [Nat.mod_eq_of_lt hj]
    rw [hcong, map_getD_range]
  · intro hdvd m hm
    rw [hsnd m hm]
    dsimp only
    have hc : data.length / B * B = data.length :=
      Nat.div_mul_cancel (Nat.dvd_of_mod_eq_zero hdvd)
    have hc1 : 1 ≤ data.length / B :=
      (Nat.one_le_div_iff (by omega)).mpr (by omega)
    have hqr : data.length / B * ((m - 1) / (data.length / B)) +
        (m - 1) % (data.length / B) = m - 1 :=
      Nat.div_add_mod (m - 1) (data.length / B)
    set c := data.length / B with hcdef
    set q := (m - 1) / c with hqdef
    set r2 := (m - 1) % c with hr2def
    have hr2 : r2 < c := Nat.mod_lt _ (by omega)
    have hm1 : m = c * q + r2 + 1 := by omega
    have hmB : m * B = c * B * q + (r2 * B + B) := by rw [hm1]; ring
    have hlt : r2 * B + B - 1 < data.length := by
      have h5 : (r2 + 1) * B ≤ c * B := Nat.mul_le_mul_right B (by omega)
      have h6 : (r2 + 1) * B = r2 * B + B := by ring
      omega
    have heq : m * B - 1 = data.length * q + (r2 * B + B - 1) := by
      have h7 : c * B * q = data.length * q := by rw [hc]
      have h8 : 1 ≤ r2 * B + B := by
        have : 0 ≤ r2 * B := Nat.zero_le _
        omega
      omega
    rw [heq, Nat.mul_add_div (by omega), Nat.div_eq_of_lt hlt]
    omega
  · intro hndvd
    have hdm := Nat.div_add_mod data.length B
    have hsB : data.length % B < B := Nat.mod_lt _ (by omega)
    have hc1 : 1 ≤ data.length / B :=
      (Nat.one_le_div_iff (by omega)).mpr (by omega)
    have hcB : data.length / B * B = B * (data.length / B) := by ring
    have h8 : (data.length / B + 1) * B = data.length / B * B + B := by ring
    have h5c : data.length / B * B ≤ data.length - 1 := by omega
    have h5d : data.length < (data.length / B + 1) * B := by omega
    refine ⟨?_, ?_, h5c, h5d, ?_, ?_⟩
    · rw [hsnd _ (by omega)]
      dsimp only
      exact Nat.div_eq_of_lt (by omega)
    · rw [hsnd _ (by omega)]
      dsimp only
      apply Nat.div_eq_of_lt_le
      · omega
      · omega
    · rw [hstream _, List.getElem?_map, List.getElem?_range (by omega)]
      simp only [Option.map_some']
      rw [Nat.mod_eq_of_lt (by omega)]
      rw [List.getElem?_eq_getElem (show data.length - 1 < data.length by omega)]
      rw [List.getD_eq_getElem data 0 (by omega)]
    · rw [hstream _, List.getElem?_map, List.getElem?_range (by omega)]
      simp only [Option.map_some']
      rw [Nat.mod_self]
      rw [List.getElem?_eq_getElem (show 0 < data.length by omega)]
      rw [List.getD_eq_getElem data 0 (by omega)]

/-- Witness for C4: the corpus `[10, 20, 30]` (`K = 3`) with batch size `B = 2`. -/
theorem seq_single_file_visits_and_epochs_witness :
    (1 ≤ 2 ∧ 2 < ([10, 20, 30] : List Nat).length) ∧
    ((∀ m, (runBatches ([10, 20, 30] : List Nat) 2 m).1.flatten =
        (List.range (m * 2)).map
          (fun j => ([10, 20, 30] : List Nat).getD (j % ([10, 20, 30] : List Nat).length) 0)) ∧
    (∀ m, ([10, 20, 30] : List Nat).length ≤ m * 2 →
        ((runBatches ([10, 20, 30] : List Nat) 2 m).1.flatten).take
          ([10, 20, 30] : List Nat).length = [10, 20, 30]) ∧
    (∀ m, ¬m = 0 → (runBatches ([10, 20, 30] : List Nat) 2 m).2 =
        (m * 2 - ([10, 20, 30] : List Nat).length *
            ((m * 2 - 1) / ([10, 20, 30] : List Nat).length),
          (m * 2 - 1) / ([10, 20, 30] : List Nat).length)) ∧
    (([10, 20, 30] : List Nat).length % 2 = 0 → ∀ m, ¬m = 0 →
        ((runBatches ([10, 20, 30] : List Nat) 2 m).2).2 =
          (m - 1) / (([10, 20, 30] : List Nat).length / 2)) ∧
    (¬([10, 20, 30] : List Nat).length % 2 = 0 →
        ((runBatches ([10, 20, 30] : List Nat) 2
            (([10, 20, 30] : List Nat).length / 2)).2).2 = 0 ∧
        ((runBatches ([10, 20, 30] : List Nat) 2
            (([10, 20, 30] : List Nat).length / 2 + 1)).2).2 = 1 ∧
        ([10, 20, 30] : List Nat).length / 2 * 2 ≤ ([10, 20, 30] : List Nat).length - 1 ∧
        ([10, 20, 30] : List Nat).length <
          (([10, 20, 30] : List Nat).length / 2 + 1) * 2 ∧
        ((runBatches ([10, 20, 30] : List Nat) 2
            (([10, 20, 30] : List Nat).length / 2 + 1)).1.flatten)[([10, 20, 30] : List Nat).length - 1]? =
          ([10, 20, 30] : List Nat)[([10, 20, 30] : List Nat).length - 1]? ∧
        ((runBatches ([10, 20, 30] : List Nat) 2
            (([10, 20, 30] : List Nat).length / 2 + 1)).1.flatten)[([10, 20, 30] : List Nat).length]? =
          ([10, 20, 30] : List Nat)[0]?)) :=
  ⟨⟨by decide, by decide⟩,
    seq_single_file_visits_and_epochs [10, 20, 30] 2 (by decide) (by decide)⟩

/-! ## Structured-sample materialization (C5, C6, C7) -/

theorem pad_or_trunc_field (block_size : Nat) (x : Int) (pad : Int)
    (hpad : 0 ≤ pad) (l : List Int) :
    (if block_size + 1 ≤ l.length then l.take (block_size + 1 - 1)
     else if 0 ≤ pad ∧ l.length < block_size + 1 - 1 then
       l ++ List.replicate (block_size + 1 - 1 - l.length) x
     else l) =
    l.take block_size ++ List.replicate (block_size - l.length) x := by
  have hs : block_size + 1 - 1 = block_size := by omega
  rw [hs]
  rcases Nat.lt_or_ge l.length (block_size + 1) with hlen | hlen
  · rw [if_neg (by omega)]
    rcases Nat.lt_or_ge l.length block_size with hlt | hge
    · rw [if_pos ⟨hpad, hlt⟩]
      rw [List.take_of_length_le (by omega)]
    · have heq : l.length = block_size := by omega
      rw [if_neg (by omega)]
      rw [List.take_of_length_le (by omega), heq, Nat.sub_self, List.replicate_zero,
        List.append_nil]
  · rw [if_pos (by omega)]
    have h0 : block_size - l.length = 0 := by omega
    rw [h0, List.replicate_zero, List.append_nil]

/-- C5 counterexample: with `block_size = 4`, `ignore_index = -1`,
`pad_token_id = 5 ≥ 0`, the structured sample `input_ids = [7, 8]` is padded by
`pad_or_truncate_to_block_size` with the ignore sentinel `-1`, not with the
configured pad token `5`, contradicting the claim that shorter `input_ids` are
padded with the configured pad token. -/
theorem pad_or_truncate_input_padded_with_ignore :
    (pad_or_truncate_sample 4 (-1) 5 true
        { input_ids := [7, 8], target_ids := some [9, 9],
          target_weights := none }).input_ids = [7, 8, -1, -1] ∧
    ¬(pad_or_truncate_sample 4 (-1) 5 true
        { input_ids := [7, 8], target_ids := some [9, 9],
          target_weights := none }).input_ids = [7, 8, 5, 5] := by
  constructor
  · decide
  · decide

/-- C5 (amended): for `pad_token_id ≥ 0`, the eager materialization
`pad_or_truncate_to_block_size` brings every field of a structured sample to exactly
`block_size`: a field longer than `block_size` is truncated to `block_size`, a
shorter one is padded up to `block_size` — but `input_ids` (like `target_ids`) is
padded with the ignore sentinel `ignore_index`, not with the configured pad token,
and `target_weights` with 0 — so the materialized `input_ids`, `target_ids` (and
`target_weights` when weighted loss is enabled; the field is deleted otherwise) all
have length exactly `block_size`. -/
theorem pad_or_truncate_sample_spec (block_size : Nat)
    (ignore_index pad_token_id : Int) (weighted_loss : Bool) (s : InstrSample)
    (hpad : 0 ≤ pad_token_id) :
    (pad_or_truncate_sample block_size ignore_index pad_token_id weighted_loss
        s).input_ids =
      s.input_ids.take block_size ++
        List.replicate (block_size - s.input_ids.length) ignore_index ∧
    (pad_or_truncate_sample block_size ignore_index pad_token_id weighted_loss
        s).target_ids =
      some ((instrTargetBase s).take block_size ++
        List.replicate (block_size - (instrTargetBase s).length) ignore_index) ∧
    (pad_or_truncate_sample block_size ignore_index pad_token_id weighted_loss
        s).target_weights =
      (if weighted_loss then
        some ((instrWeightsBase ignore_index s).take block_size ++
          List.replicate (block_size - (instrWeightsBase ignore_index s).length) 0)
       else none) ∧
    (pad_or_truncate_sample block_size ignore_index pad_token_id weighted_loss
        s).input_ids.length = block_size ∧
    (∀ t, (pad_or_truncate_sample block_size ignore_index pad_token_id weighted_loss
        s).target_ids = some t → t.length = block_size) ∧
    (∀ w, (pad_or_truncate_sample block_size ignore_index pad_token_id weighted_loss
        s).target_weights = some w → w.length = block_size) := by
  have hlen : ∀ (l : List Int) (x : Int),
      (l.take block_size ++
        List.replicate (block_size - l.length) x).length = block_size := by
    intro l x
    simp only [List.length_append, List.length_take, List.length_replicate]
    omega
  have hinput : (pad_or_truncate_sample block_size ignore_index pad_token_id
      weighted_loss s).input_ids =
      s.input_ids.take block_size ++
        List.replicate (block_size - s.input_ids.length) ignore_index := by
    unfold pad_or_truncate_sample
    dsimp only
    exact pad_or_trunc_field block_size ignore_index pad_token_id hpad s.input_ids
  have htarget : (pad_or_truncate_sample block_size ignore_index pad_token_id
      weighted_loss s).target_ids =
      some ((instrTargetBase s).take block_size ++
        List.replicate (block_size - (instrTargetBase s).length) ignore_index) := by
    unfold pad_or_truncate_sample
    dsimp only
    rw [pad_or_trunc_field block_size ignore_index pad_token_id hpad
      (instrTargetBase s)]
  have hweights : (pad_or_truncate_sample block_size ignore_index pad_token_id
      weighted_loss s).target_weights =
      (if weighted_loss then
        some ((instrWeightsBase ignore_index s).take block_size ++
          List.replicate (block_size - (instrWeightsBase ignore_index s).length) 0)
       else none) := by
    unfold pad_or_truncate_sample
    dsimp only
    cases weighted_loss with
    | false => rfl
    | true =>
      rw [if_pos rfl, if_pos rfl]
      simp only [Option.map_some']
      rw [pad_or_trunc_field block_size 0 pad_token_id hpad
        (instrWeightsBase ignore_index s)]
  refine ⟨hinput, htarget, hweights, ?_, ?_, ?_⟩
  · rw [hinput]
    exact hlen _ _
  · intro t ht
    rw [htarget] at ht
    obtain rfl : _ = t := Option.some_injective _ ht
    exact hlen _ _
  · intro w hw
    rw [hweights] at hw
    cases weighted_loss with
    | false => cases hw
    | true =>
      rw [if_pos rfl] at hw
      obtain rfl : _ = w := Option.some_injective _ hw
      exact hlen _ _

/-- Witness for C5 (amended): `block_size = 4`, `ignore_index = -1`,
`pad_token_id = 5`, weighted loss on, a short sample. -/
theorem pad_or_truncate_sample_spec_witness :
    ((0 : Int) ≤ 5) ∧
    ((pad_or_truncate_sample 4 (-1) 5 true
        { input_ids := [7, 8], target_ids := some [9, -1, 9, 9, 9, 9],
          target_weights := none }).input_ids =
      ([7, 8] : List Int).take 4 ++ List.replicate (4 - ([7, 8] : List Int).length) (-1) ∧
    (pad_or_truncate_sample 4 (-1) 5 true
        { input_ids := [7, 8], target_ids := some [9, -1, 9, 9, 9, 9],
          target_weights := none }).target_ids =
      some ((instrTargetBase
          { input_ids := [7, 8], target_ids := some [9, -1, 9, 9, 9, 9],
            target_weights := none }).take 4 ++
        List.replicate (4 - (instrTargetBase
          { input_ids := [7, 8], target_ids := some [9, -1, 9, 9, 9, 9],
            target_weights := none }).length) (-1)) ∧
    (pad_or_truncate_sample 4 (-1) 5 true
        { input_ids := [7, 8], target_ids := some [9, -1, 9, 9, 9, 9],
          target_weights := none }).target_weights =
      (if true then
        some ((instrWeightsBase (-1)
            { input_ids := [7, 8], target_ids := some [9, -1, 9, 9, 9, 9],
              target_weights := none }).take 4 ++
          List.replicate (4 - (instrWeightsBase (-1)
            { input_ids := [7, 8], target_ids := some [9, -1, 9, 9, 9, 9],
              target_weights := none }).length) 0)
       else none) ∧
    (pad_or_truncate_sample 4 (-1) 5 true
        { input_ids := [7, 8], target_ids := some [9, -1, 9, 9, 9, 9],
          target_weights := none }).input_ids.length = 4 ∧
    (∀ t, (pad_or_truncate_sample 4 (-1) 5 true
        { input_ids := [7, 8], target_ids := some [9, -1, 9, 9, 9, 9],
          target_weights := none }).target_ids = some t → t.length = 4) ∧
    (∀ w, (pad_or_truncate_sample 4 (-1) 5 true
        { input_ids := [7, 8], target_ids := some [9, -1, 9, 9, 9, 9],
          target_weights := none }).target_weights = some w → w.length = 4)) :=
  ⟨by decide,
    pad_or_truncate_sample_spec 4 (-1) 5 true
      { input_ids := [7, 8], target_ids := some [9, -1, 9, 9, 9, 9],
        target_weights := none } (by decide)⟩

theorem prepare_alm_base_fields (block_size : Nat) (ignore_index pad_token_id : Int)
    (weighted_loss : Bool) (s : AlmSample) :
    (prepare_alm_sample block_size ignore_index pad_token_id weighted_loss
        s).input_ids =
      (if 0 ≤ pad_token_id ∧ s.input_ids.length < block_size then
        s.input_ids ++ List.replicate (block_size - s.input_ids.length) pad_token_id
       else s.input_ids) ∧
    (prepare_alm_sample block_size ignore_index pad_token_id weighted_loss
        s).target_ids =
      (if 0 ≤ pad_token_id ∧ s.target_ids.length < block_size then
        s.target_ids ++ List.replicate (block_size - s.target_ids.length) ignore_index
       else s.target_ids) ∧
    (prepare_alm_sample block_size ignore_index pad_token_id weighted_loss
        s).target_weights =
      (if weighted_loss then some (almWeightsBase ignore_index s) else none).map
        (fun w => if 0 ≤ pad_token_id ∧ w.length < block_size then
          w ++ List.replicate (block_size - w.length) 0
         else w) := by
  unfold prepare_alm_sample
  cases hsl : s.seq_lens with
  | none => exact ⟨rfl, rfl, rfl⟩
  | some lens => exact ⟨rfl, rfl, rfl⟩

/-- C6 counterexample: an ALM sample carrying an explicit `target_weights = [7]` is
materialized (`block_size = 3`, `ignore_index = -1`, `pad_token_id = 0`, weighted
loss on) into `target_weights = [7, 0, 0]` while `target_ids = [-1, -1, -1]` is all
ignore, so the weights are not 0/1-valued according to the ignore mask: explicit
weights are passed through (then zero-padded), never derived or validated. -/
theorem prepare_alm_explicit_weights_not_validated :
    (prepare_alm_sample 3 (-1) 0 true
        { input_ids := [1], target_ids := [-1], target_weights := some [7],
          seq_lens := none }).target_weights = some [7, 0, 0] ∧
    (prepare_alm_sample 3 (-1) 0 true
        { input_ids := [1], target_ids := [-1], target_weights := some [7],
          seq_lens := none }).target_ids = [-1, -1, -1] ∧
    ¬(prepare_alm_sample 3 (-1) 0 true
        { input_ids := [1], target_ids := [-1], target_weights := some [7],
          seq_lens := none }).target_weights =
      some (((prepare_alm_sample 3 (-1) 0 true
        { input_ids := [1], target_ids := [-1], target_weights := some [7],
          seq_lens := none }).target_ids).map
        (fun t => if t = -1 then (0 : Int) else 1)) := by
  refine ⟨by decide, by decide, by decide⟩

/-- C6 (amended): for an ALM sample with `input_ids` shorter than `block_size`,
materialized with `pad_token_id ≥ 0` and weighted loss enabled, and carrying no
explicit `target_weights` (so the weights are derived), the result has `input_ids`
padded to `block_size` with `pad_token_id`, `target_ids` padded to `block_size` with
the ignore sentinel when it is shorter (left unchanged otherwise), and
`target_weights` equal, position by position, to 1 where the materialized
`target_ids` differs from `ignore_index` and 0 where it equals `ignore_index` — in
particular 0 throughout the padded region. -/
theorem prepare_alm_sample_derived_weights (block_size : Nat)
    (ignore_index pad_token_id : Int) (s : AlmSample)
    (hpad : 0 ≤ pad_token_id)
    (hshort : s.input_ids.length < block_size)
    (hw : s.target_weights = none) :
    (prepare_alm_sample block_size ignore_index pad_token_id true s).input_ids =
      s.input_ids ++ List.replicate (block_size - s.input_ids.length) pad_token_id ∧
    (prepare_alm_sample block_size ignore_index pad_token_id true s).target_ids =
      (if s.target_ids.length < block_size then
        s.target_ids ++ List.replicate (block_size - s.target_ids.length) ignore_index
       else s.target_ids) ∧
    (prepare_alm_sample block_size ignore_index pad_token_id true s).target_weights =
      some (((prepare_alm_sample block_size ignore_index pad_token_id true
          s).target_ids).map
        (fun t => if t = ignore_index then (0 : Int) else 1)) := by
  obtain ⟨hin, htg, hwt⟩ :=
    prepare_alm_base_fields block_size ignore_index pad_token_id true s
  have hbase : almWeightsBase ignore_index s =
      s.target_ids.map fun t => if t = ignore_index then (0 : Int) else 1 := by
    unfold almWeightsBase
    rw [hw]
  have hbaselen : (almWeightsBase ignore_index s).length = s.target_ids.length := by
    rw [hbase, List.length_map]
  refine ⟨?_, ?_, ?_⟩
  · rw [hin, if_pos ⟨hpad, hshort⟩]
  · rw [htg]
    by_cases ht : s.target_ids.length < block_size
    · rw [if_pos ⟨hpad, ht⟩, if_pos ht]
    · rw [if_neg (fun hc => ht hc.2), if_neg ht]
  · rw [hwt, htg, if_pos rfl]
    simp only [Option.map_some']
    rw [hbaselen]
    by_cases ht : s.target_ids.length < block_size
    · rw [if_pos ⟨hpad, ht⟩, if_pos ⟨hpad, ht⟩]
      rw [hbase, List.map_append, List.map_replicate]
      simp
    · rw [if_neg (fun hc => ht hc.2), if_neg (fun hc => ht hc.2)]
      rw [hbase]

/-- Witness for C6 (amended): `block_size = 3`, `ignore_index = -1`,
`pad_token_id = 9`, sample `input_ids = [2]`, `target_ids = [3, -1]`, no explicit
weights. -/
theorem prepare_alm_sample_derived_weights_witness :
    ((0 : Int) ≤ 9 ∧ ([2] : List Int).length < 3 ∧
      (({ input_ids := [2], target_ids := [3, -1], target_weights := none,
          seq_lens := none } : AlmSample)).target_weights = none) ∧
    ((prepare_alm_sample 3 (-1) 9 true
        { input_ids := [2], target_ids := [3, -1], target_weights := none,
          seq_lens := none }).input_ids =
      [2] ++ List.replicate (3 - ([2] : List Int).length) 9 ∧
    (prepare_alm_sample 3 (-1) 9 true
        { input_ids := [2], target_ids := [3, -1], target_weights := none,
          seq_lens := none }).target_ids =
      (if ([3, -1] : List Int).length < 3 then
        [3, -1] ++ List.replicate (3 - ([3, -1] : List Int).length) (-1)
       else [3, -1]) ∧
    (prepare_alm_sample 3 (-1) 9 true
        { input_ids := [2], target_ids := [3, -1], target_weights := none,
          seq_lens := none }).target_weights =
      some (((prepare_alm_sample 3 (-1) 9 true
          { input_ids := [2], target_ids := [3, -1], target_weights := none,
            seq_lens := none }).target_ids).map
        (fun t => if t = -1 then (0 : Int) else 1))) :=
  ⟨⟨by decide, by decide, rfl⟩,
    prepare_alm_sample_derived_weights 3 (-1) 9
      { input_ids := [2], target_ids := [3, -1], target_weights := none,
        seq_lens := none } (by decide) (by decide) rfl⟩

theorem seq_lens_foldl (lens : List Nat) :
    ∀ (p0 : List Nat) (t0 : Nat) (b0 : List (List (List Bool))),
      lens.foldl
        (fun acc l => (acc.1 ++ List.range l, acc.2.1 + l, acc.2.2 ++ [tril l]))
        (p0, t0, b0) =
      (p0 ++ (lens.map List.range).flatten, t0 + lens.sum, b0 ++ lens.map tril) := by
  induction lens with
  | nil =>
    intro p0 t0 b0
    simp
  | cons l rest ih =>
    intro p0 t0 b0
    simp only [List.foldl_cons]
    rw [ih]
    simp only [List.map_cons, List.flatten_cons, List.sum_cons, Prod.mk.injEq]
    refine ⟨by rw [List.append_assoc], by omega, by rw [List.append_assoc]; rfl⟩

theorem getLast?_append_right {α : Type} (l1 l2 : List α) (h : ¬l2 = []) :
    (l1 ++ l2).getLast? = l2.getLast? := by
  have h2 : 1 ≤ l2.length := List.length_pos.mpr h
  rw [List.getLast?_eq_getElem?, List.getLast?_eq_getElem?, List.length_append]
  rw [List.getElem?_append_right (by omega)]
  congr 1
  omega

theorem flatten_ranges_getLast? :
    ∀ (lens : List Nat), ¬lens = [] → (∀ l ∈ lens, 1 ≤ l) →
      ((lens.map List.range).flatten).getLast? = some (lens.getLastD 0 - 1) := by
  intro lens
  induction lens with
  | nil =>
    intro h _
    exact absurd rfl h
  | cons l rest ih =>
    intro _ hpos
    cases rest with
    | nil =>
      simp only [List.map_cons, List.map_nil, List.flatten_cons, List.flatten_nil,
        List.append_nil]
      have hl : 1 ≤ l := hpos l (List.mem_cons_self _ _)
      obtain ⟨l', rfl⟩ : ∃ l', l = l' + 1 := ⟨l - 1, by omega⟩
      rw [List.range_succ, List.getLast?_concat]
      rfl
    | cons l2 rest2 =>
      rw [List.map_cons, List.flatten_cons]
      have hrest : ¬(l2 :: rest2) = ([] : List Nat) := by simp
      have hposr : ∀ x ∈ l2 :: rest2, 1 ≤ x :=
        fun x hx => hpos x (List.mem_cons_of_mem _ hx)
      rw [getLast?_append_right _ _ ?_]
      · rw [ih hrest hposr]
        rfl
      · intro hfl
        have := congrArg List.length hfl
        simp only [List.length_flatten, List.length_nil] at this
        have hl2 : 1 ≤ l2 := hposr l2 (List.mem_cons_self _ _)
        simp only [List.map_cons, List.map_map, List.sum_cons] at this
        have : l2 = 0 := by
          have hrange : (List.range l2).length = l2 := List.length_range l2
          omega
        omega

/-- C7: for an ALM sample carrying non-trivial `seq_lens` whose total is less than
the padded input length, materialization produces `attn_mask` as the block-diagonal
matrix of one lower-triangular all-ones block per sequence length followed by an
identity block covering the pad region, and `input_pos` as the concatenation of
`0..len-1` for each sub-sequence followed by positions continuing monotonically from
the last sub-sequence's final position (`lens.getLast`, i.e. `(lens.getLast - 1) + 1`)
into the pad region. -/
theorem prepare_alm_sample_packed (block_size : Nat)
    (ignore_index pad_token_id : Int) (weighted_loss : Bool) (s : AlmSample)
    (lens : List Nat) (hseq : s.seq_lens = some lens) (hne : ¬lens = [])
    (hpos : ∀ l ∈ lens, 1 ≤ l)
    (hsum : lens.sum <
      (prepare_alm_sample block_size ignore_index pad_token_id weighted_loss
        s).input_ids.length) :
    (prepare_alm_sample block_size ignore_index pad_token_id weighted_loss
        s).input_pos =
      some ((lens.map List.range).flatten ++
        List.range' (lens.getLastD 0)
          ((prepare_alm_sample block_size ignore_index pad_token_id weighted_loss
            s).input_ids.length - lens.sum)) ∧
    (prepare_alm_sample block_size ignore_index pad_token_id weighted_loss
        s).attn_mask =
      some (blockDiag (lens.map tril ++
        [eye ((prepare_alm_sample block_size ignore_index pad_token_id weighted_loss
          s).input_ids.length - lens.sum)])) := by
  have hlastmem : lens.getLastD 0 ∈ lens := by
    cases lens with
    | nil => exact absurd rfl hne
    | cons a t =>
      rw [List.getLastD_eq_getLast?, List.getLast?_eq_getLast (a :: t) (by simp)]
      exact List.getLast_mem _
  have hlast1 : 1 ≤ lens.getLastD 0 := hpos _ hlastmem
  have hlastpos : ((lens.map List.range).flatten).getLastD 0 + 1 =
      lens.getLastD 0 := by
    rw [List.getLastD_eq_getLast?, flatten_ranges_getLast? lens hne hpos]
    simp only [Option.getD_some]
    omega
  obtain ⟨hin, -, -⟩ :=
    prepare_alm_base_fields block_size ignore_index pad_token_id weighted_loss s
  rw [hin] at hsum ⊢
  unfold prepare_alm_sample
  simp only [hseq]
  rw [seq_lens_foldl]
  dsimp only
  simp only [List.nil_append, Nat.zero_add]
  rw [if_pos hsum]
  dsimp only
  rw [hlastpos]
  exact ⟨rfl, rfl⟩

/-- Witness for C7: `block_size = 7`, a 5-token packed sample with
`seq_lens = [3, 2]` padded by 2, checked both through the theorem and against the
concrete mask and position vector from the specification. -/
theorem prepare_alm_sample_packed_witness :
    ((({ input_ids := [5, 5, 5, 5, 5], target_ids := [5, 5, 5, 5, 5],
          target_weights := none, seq_lens := some [3, 2] } : AlmSample)).seq_lens =
        some [3, 2] ∧
      ¬([3, 2] : List Nat) = [] ∧ (∀ l ∈ ([3, 2] : List Nat), 1 ≤ l) ∧
      ([3, 2] : List Nat).sum <
        (prepare_alm_sample 7 (-1) 0 false
          { input_ids := [5, 5, 5, 5, 5], target_ids := [5, 5, 5, 5, 5],
            target_weights := none, seq_lens := some [3, 2] }).input_ids.length) ∧
    ((prepare_alm_sample 7 (-1) 0 false
        { input_ids := [5, 5, 5, 5, 5], target_ids := [5, 5, 5, 5, 5],
          target_weights := none, seq_lens := some [3, 2] }).input_pos =
      some ((([3, 2] : List Nat).map List.range).flatten ++
        List.range' (([3, 2] : List Nat).getLastD 0)
          ((prepare_alm_sample 7 (-1) 0 false
            { input_ids := [5, 5, 5, 5, 5], target_ids := [5, 5, 5, 5, 5],
              target_weights := none, seq_lens := some [3, 2] }).input_ids.length -
            ([3, 2] : List Nat).sum)) ∧
    (prepare_alm_sample 7 (-1) 0 false
        { input_ids := [5, 5, 5, 5, 5], target_ids := [5, 5, 5, 5, 5],
          target_weights := none, seq_lens := some [3, 2] }).attn_mask =
      some (blockDiag (([3, 2] : List Nat).map tril ++
        [eye ((prepare_alm_sample 7 (-1) 0 false
          { input_ids := [5, 5, 5, 5, 5], target_ids := [5, 5, 5, 5, 5],
            target_weights := none, seq_lens := some [3, 2] }).input_ids.length -
          ([3, 2] : List Nat).sum)]))) ∧
    ((prepare_alm_sample 7 (-1) 0 false
        { input_ids := [5, 5, 5, 5, 5], target_ids := [5, 5, 5, 5, 5],
          target_weights := none, seq_lens := some [3, 2] }).input_pos =
      some [0, 1, 2, 0, 1, 2, 3] ∧
    (prepare_alm_sample 7 (-1) 0 false
        { input_ids := [5, 5, 5, 5, 5], target_ids := [5, 5, 5, 5, 5],
          target_weights := none, seq_lens := some [3, 2] }).attn_mask =
      some [[true, false, false, false, false, false, false],
            [true, true, false, false, false, false, false],
            [true, true, true, false, false, false, false],
            [false, false, false, true, false, false, false],
            [false, false, false, true, true, false, false],
            [false, false, false, false, false, true, false],
            [false, false, false, false, false, false, true]]) :=
  ⟨⟨rfl, by decide, by decide, by decide⟩,
    prepare_alm_sample_packed 7 (-1) 0 false
      { input_ids := [5, 5, 5, 5, 5], target_ids := [5, 5, 5, 5, 5],
        target_weights := none, seq_lens := some [3, 2] }
      [3, 2] rfl (by decide) (by decide) (by decide),
    by decide, by decide⟩

/-! ## File catalog (C8) -/

/-- C8 counterexample: an explicit training file list containing a duplicate
(`dataset_train_files` splitting to `[2, 1, 1]`) is sorted but not deduplicated —
`get_dataset_files` returns `[1, 1, 2]`, which is not duplicate-free, contradicting
the claim that the catalog produces a deduplicated list. -/
theorem get_dataset_files_keeps_duplicates :
    get_dataset_files true ([2, 1, 1] : List Nat) [] false [] (fun _ => false) =
      Except.ok [1, 1, 2] ∧
    ¬([1, 1, 2] : List Nat).Nodup := by
  constructor
  · rfl
  · decide

/-- C8 (amended): `get_dataset_files` returns the resolved split file list sorted,
but not deduplicated — the result is a permutation of the resolved list, duplicates
included.  It raises the fatal error if and only if the training split resolves to
zero files, while a validation split resolving to zero files returns the empty list
rather than an error. -/
theorem get_dataset_files_spec {α : Type} [LinearOrder α] (train_split : Bool)
    (train_files val_files : List α) (use_dir : Bool) (dir_files : List α)
    (keep : α → Bool) :
    (∀ l, get_dataset_files train_split train_files val_files use_dir dir_files
        keep = Except.ok l →
      l.Sorted (· ≤ ·) ∧
      l.Perm (selected_files train_split train_files val_files use_dir dir_files
        keep)) ∧
    ((∃ e, get_dataset_files train_split train_files val_files use_dir dir_files
        keep = Except.error e) ↔
      (train_split = true ∧
        selected_files train_split train_files val_files use_dir dir_files keep =
          [])) ∧
    (train_split = false →
      selected_files train_split train_files val_files use_dir dir_files keep = [] →
      get_dataset_files train_split train_files val_files use_dir dir_files keep =
        Except.ok []) := by
  have hdef : get_dataset_files train_split train_files val_files use_dir dir_files
      keep =
      (if !(selected_files train_split train_files val_files use_dir dir_files
          keep).isEmpty then
        Except.ok ((selected_files train_split train_files val_files use_dir
          dir_files keep).insertionSort (· ≤ ·))
      else if train_split then Except.error training_files_error
      else Except.ok []) := rfl
  by_cases hemp : selected_files train_split train_files val_files use_dir dir_files
      keep = []
  · rw [hemp] at hdef
    simp only [List.isEmpty_nil, Bool.not_true, Bool.false_eq_true, if_false] at hdef
    cases train_split with
    | true =>
      rw [if_pos rfl] at hdef
      refine ⟨?_, ?_, ?_⟩
      · intro l hl
        rw [hdef] at hl
        cases hl
      · constructor
        · intro _
          exact ⟨rfl, hemp⟩
        · intro _
          exact ⟨training_files_error, hdef⟩
      · intro h
        cases h
    | false =>
      rw [if_neg (by simp)] at hdef
      refine ⟨?_, ?_, ?_⟩
      · intro l hl
        rw [hdef] at hl
        obtain rfl : ([] : List α) = l := by
          injection hl
        exact ⟨List.sorted_nil, by rw [hemp]⟩
      · constructor
        · intro ⟨e, he⟩
          rw [hdef] at he
          cases he
        · intro ⟨h, _⟩
          cases h
      · intro _ _
        exact hdef
  · have hne : (!(selected_files train_split train_files val_files use_dir dir_files
        keep).isEmpty) = true := by
      cases hsel : selected_files train_split train_files val_files use_dir
          dir_files keep with
      | nil => exact absurd hsel hemp
      | cons a t => rfl
    rw [if_pos hne] at hdef
    refine ⟨?_, ?_, ?_⟩
    · intro l hl
      rw [hdef] at hl
      obtain rfl : _ = l := by injection hl
      exact ⟨List.sorted_insertionSort _ _, List.perm_insertionSort _ _⟩
    · constructor
      · intro ⟨e, he⟩
        rw [hdef] at he
        cases he
      · intro ⟨_, h⟩
        exact absurd h hemp
    · intro _ h
      exact absurd h hemp

/-- Witness for C8 (amended): an empty validation split yields `ok []`. -/
theorem get_dataset_files_spec_witness :
    get_dataset_files false ([] : List Nat) [] false [] (fun _ => false) =
      Except.ok [] :=
  (get_dataset_files_spec false ([] : List Nat) [] false [] (fun _ => false)).2.2
    rfl rfl

/-! ## Prefetch buffer (C9) and validation fallback (C10) -/

/-- C9: the slot is filled by `update_buffer` with the batch assembled from the
offset window `[o, o + B)` together with the post-batch offset `o + B`; a worker is
spawned by `reload_buffer` iff the next full batch fits in the loaded file
(`new offset + B ≤ file sample count`), and then the slot holds exactly
`update_buffer`'s result, otherwise the slot stays empty and no worker starts.  When
the consumer takes a filled slot it returns the precomputed batch verbatim, adopts
the stored offset as the new cursor position, and reruns `reload_buffer` from the
adopted offset; when the slot is empty, `get_batch` assembles the batch
synchronously from the cursor window. -/
theorem prefetch_buffer_spec (data : List Nat) (B : Nat) :
    (∀ off, update_buffer data B off = (pySlice data off (off + B), off + B)) ∧
    (∀ off, (reload_buffer data B off).2 = true ↔ off + B ≤ data.length) ∧
    (∀ off, off + B ≤ data.length →
      (reload_buffer data B off).1 = some (update_buffer data B off)) ∧
    (∀ off, data.length < off + B → (reload_buffer data B off).1 = none) ∧
    (∀ s slot, s.buffer = some slot →
      get_batch_buffered data B s =
        (slot.1,
          { offset := slot.2, epoch := s.epoch,
            buffer := (reload_buffer data B slot.2).1,
            threadSpawned := (reload_buffer data B slot.2).2 })) ∧
    (∀ s, s.buffer = none → s.offset + B ≤ data.length →
      get_batch_buffered data B s =
        (pySlice data s.offset (s.offset + B),
          { offset := s.offset + B, epoch := s.epoch,
            buffer := (reload_buffer data B (s.offset + B)).1,
            threadSpawned := (reload_buffer data B (s.offset + B)).2 })) := by
  refine ⟨fun off => rfl, ?_, ?_, ?_, ?_, ?_⟩
  · intro off
    unfold reload_buffer
    by_cases h : off + B ≤ data.length
    · rw [if_pos h]
      simp [h]
    · rw [if_neg h]
      simp [h]
  · intro off h
    unfold reload_buffer
    rw [if_pos h]
  · intro off h
    unfold reload_buffer
    rw [if_neg (by omega)]
  · intro s slot hs
    unfold get_batch_buffered
    rw [hs]
  · intro s hs hfit
    unfold get_batch_buffered
    rw [hs, if_pos hfit]

/-- Witness for C9: a filled, cursor-consistent slot over `[1, 2, 3, 4]` with
`B = 2` is consumed, adopting offset 2 and respawning the prefetch. -/
theorem prefetch_buffer_spec_witness :
    get_batch_buffered ([1, 2, 3, 4] : List Nat) 2
        { offset := 0, epoch := 0, buffer := some ([1, 2], 2),
          threadSpawned := true } =
      (([1, 2] : List Nat),
        { offset := 2, epoch := 0,
          buffer := (reload_buffer ([1, 2, 3, 4] : List Nat) 2 2).1,
          threadSpawned := (reload_buffer ([1, 2, 3, 4] : List Nat) 2 2).2 }) :=
  (prefetch_buffer_spec [1, 2, 3, 4] 2).2.2.2.2.1
    { offset := 0, epoch := 0, buffer := some ([1, 2], 2), threadSpawned := true }
    ([1, 2], 2) rfl

/-- C10: when the validation dataset loaded zero samples (`val_dataset is None`),
`get_batch` for any split — in particular `'val'` — silently draws from the
training dataset: the selected dataset is the training data, the returned batch is
the training samples at the drawn random indices (so it never raises and is never a
distinct validation batch), every returned sample belongs to the training data, and
the batch has one sample per drawn index (never empty for a positive batch size). -/
theorem get_batch_val_falls_back_to_train (split : String) (train_data : List Nat)
    (idxs : List Nat) (hidx : ∀ i ∈ idxs, i < train_data.length) :
    select_dataset split train_data none = train_data ∧
    get_batch_random split train_data none idxs =
      idxs.map (fun i => train_data.getD i 0) ∧
    (∀ x ∈ get_batch_random split train_data none idxs, x ∈ train_data) ∧
    (get_batch_random split train_data none idxs).length = idxs.length := by
  have hsel : select_dataset split train_data none = train_data := by
    unfold select_dataset
    rw [if_pos (Or.inr rfl)]
  refine ⟨hsel, ?_, ?_, ?_⟩
  · unfold get_batch_random
    rw [hsel]
  · intro x hx
    unfold get_batch_random at hx
    rw [hsel] at hx
    obtain ⟨i, hi, rfl⟩ := List.mem_map.mp hx
    have hi2 := hidx i hi
    rw [List.getD_eq_getElem _ _ hi2]
    exact List.getElem_mem hi2
  · unfold get_batch_random
    rw [List.length_map]

/-- Witness for C10: split `'val'`, training data `[5, 6]`, drawn indices
`[1, 0, 1]`. -/
theorem get_batch_val_falls_back_to_train_witness :
    (∀ i ∈ ([1, 0, 1] : List Nat), i < ([5, 6] : List Nat).length) ∧
    (select_dataset "val" ([5, 6] : List Nat) none = [5, 6] ∧
    get_batch_random "val" ([5, 6] : List Nat) none [1, 0, 1] =
      ([1, 0, 1] : List Nat).map (fun i => ([5, 6] : List Nat).getD i 0) ∧
    (∀ x ∈ get_batch_random "val" ([5, 6] : List Nat) none [1, 0, 1],
      x ∈ ([5, 6] : List Nat)) ∧
    (get_batch_random "val" ([5, 6] : List Nat) none [1, 0, 1]).length =
      ([1, 0, 1] : List Nat).length) :=
  ⟨by decide,
    get_batch_val_falls_back_to_train "val" [5, 6] [1, 0, 1] (by decide)⟩

end Allamo
